import Mathlib

/-!
Verification development for the efiextract program (src/efiextract.c):
parsing of the `struct linux_efi_zboot_header` at the start of an EFI
zboot image, and the bounded chunked payload copy `copy_data`.

Modelling conventions:
* A byte stream (the contents of a file) is a `List Nat`, each entry one
  byte value.
* `fread(&header, sizeof(header), 1, fin)` returns 1 exactly when the
  full `sizeof(header)` bytes are available; the header struct overlay is
  modelled as field extraction at the fixed byte offsets of the struct
  layout (which has no padding: every field is naturally aligned).
* `fseek(fin, offset, SEEK_SET)` with a nonnegative offset on a seekable
  regular input stream succeeds, including past end of file, so the seek
  failure arm of `copy_data` is not reachable in this stream model; a
  read past end of file then fails as a short read.
* `fread(buf, size, 1, fin)` in the copy loop returns 1 exactly when
  `size` further bytes are available at the current position; `fwrite`
  to the list-modelled sink always succeeds.
-/

/-- Size of the copy buffer in `copy_data`: `unsigned char buf[16384]`. -/
def CHUNK_SIZE : Nat := 16384

/-- The PE/COFF MS-DOS stub magic number "MZ" (bytes 0x4D 0x5A). -/
def EFI_PE_MSDOS_MAGIC : List Nat := [0x4D, 0x5A]

/-- The magic bytes "zimg" marking Linux EFI zboot images. -/
def ZIMG_MAGIC : List Nat := [0x7A, 0x69, 0x6D, 0x67]

/-- The Linux header magic number, bytes 0xCD 0x23 0x82 0x81. -/
def EFI_PE_LINUX_MAGIC : List Nat := [0xCD, 0x23, 0x82, 0x81]

/-- On-wire size of `struct linux_efi_zboot_header`:
2 + 2 + 4 + 4 + 4 + 8 + 32 + 4 + 4 = 64 bytes.  The struct has no
padding (field offsets 0, 2, 4, 8, 12, 16, 24, 56, 60), so
`sizeof(struct linux_efi_zboot_header) = 64`. -/
def HEADER_SIZE : Nat := 64

/-- Bytes `[off, off + n)` of a stream: what the fixed-layout struct
overlay reads for a field of width `n` at offset `off`. -/
def fieldAt (src : List Nat) (off n : Nat) : List Nat := (src.drop off).take n

/-- Little-endian decoding of four wire bytes into an unsigned 32-bit
value: the effect of `le32toh` (applied by `fixendian`) on a field
stored little-endian on the wire, expressed on the raw bytes so that it
is independent of any host byte order. -/
def le32dec : List Nat → Nat
  | [b0, b1, b2, b3] => b0 + 2 ^ 8 * b1 + 2 ^ 16 * b2 + 2 ^ 24 * b3
  | _ => 0

/-- Little-endian encoding of an unsigned 32-bit value into four wire
bytes (least significant byte first). -/
def le32enc (x : Nat) : List Nat :=
  [x % 2 ^ 8, x / 2 ^ 8 % 2 ^ 8, x / 2 ^ 16 % 2 ^ 8, x / 2 ^ 24 % 2 ^ 8]

/-- Error taxonomy of the header parser. -/
inductive ParseError
  | TruncatedHeader
  | NotAZbootImage
deriving DecidableEq

/-- Error taxonomy of the payload copier. -/
inductive CopyError
  | SeekFailed
  | ShortRead
  | WriteFailed
deriving DecidableEq

/-- The parsed `struct linux_efi_zboot_header`, with the three
little-endian integer fields already normalised to host-native values
(the effect of the `fixendian` calls in `main`). -/
structure linux_efi_zboot_header where
  msdos_magic : List Nat
  reserved0 : List Nat
  zimg : List Nat
  payload_offset : Nat
  payload_size : Nat
  reserved1 : List Nat
  compression_type : List Nat
  linux_magic : List Nat
  pe_header_offset : Nat
deriving DecidableEq

/-- Header parsing as performed by `main` (lines 97-113 of
src/efiextract.c): read `sizeof(header) = 64` bytes in one shot — a
short read fails —, check the three magic fields, then decode the three
little-endian integer fields. -/
def parse (src : List Nat) : Except ParseError linux_efi_zboot_header :=
  if src.length < HEADER_SIZE then
    Except.error ParseError.TruncatedHeader
  else if fieldAt src 0 2 ≠ EFI_PE_MSDOS_MAGIC ∨ fieldAt src 4 4 ≠ ZIMG_MAGIC ∨
      fieldAt src 56 4 ≠ EFI_PE_LINUX_MAGIC then
    Except.error ParseError.NotAZbootImage
  else
    Except.ok
      { msdos_magic := fieldAt src 0 2
        reserved0 := fieldAt src 2 2
        zimg := fieldAt src 4 4
        payload_offset := le32dec (fieldAt src 8 4)
        payload_size := le32dec (fieldAt src 12 4)
        reserved1 := fieldAt src 16 8
        compression_type := fieldAt src 24 32
        linux_magic := fieldAt src 56 4
        pe_header_offset := le32dec (fieldAt src 60 4) }

/-- Observable state of a `copy_data` run: the bytes written to the
sink so far, the number of `fread` calls attempted, the number of
`fwrite` calls attempted, and the sizes of the successfully transferred
chunks in order. -/
structure CopyState where
  sink : List Nat
  reads : Nat
  writes : Nat
  chunks : List Nat
deriving DecidableEq

/-- The `while (len)` loop of `copy_data`: each iteration reads
`size = MIN(len, sizeof(buf))` bytes at the current position and, only
if that read fully succeeded, writes those same bytes to the sink; a
short read aborts with `ShortRead` and does not write. -/
def copyLoop (src : List Nat) (pos len : Nat) (st : CopyState) :
    CopyState × Option CopyError :=
  if hlen : len = 0 then
    (st, none)
  else if hread : pos + min len CHUNK_SIZE ≤ src.length then
    copyLoop src (pos + min len CHUNK_SIZE) (len - min len CHUNK_SIZE)
      { sink := st.sink ++ (src.drop pos).take (min len CHUNK_SIZE)
        reads := st.reads + 1
        writes := st.writes + 1
        chunks := st.chunks ++ [min len CHUNK_SIZE] }
  else
    ({ st with reads := st.reads + 1 }, some CopyError.ShortRead)
termination_by len
decreasing_by
  have hc : 0 < CHUNK_SIZE := by decide
  omega

/-- `copy_data(fin, fout, offset, len)`: seek to `offset` (which
succeeds on the regular-file model, even past end of file) and run the
chunked copy loop starting from an empty sink. -/
def copy_data (src : List Nat) (offset len : Nat) : CopyState × Option CopyError :=
  copyLoop src offset len { sink := [], reads := 0, writes := 0, chunks := [] }

/-- Fuel-indexed variant of the copy loop, identical to `copyLoop`
except that it gives up (returns `none`) when the fuel runs out before
the remaining length reaches zero.  Used to state that the loop
terminates: `len` units of fuel always suffice. -/
def copyLoopFuel (fuel : Nat) (src : List Nat) (pos len : Nat) (st : CopyState) :
    Option (CopyState × Option CopyError) :=
  if len = 0 then
    some (st, none)
  else
    match fuel with
    | 0 => none
    | f + 1 =>
      if pos + min len CHUNK_SIZE ≤ src.length then
        copyLoopFuel f src (pos + min len CHUNK_SIZE) (len - min len CHUNK_SIZE)
          { sink := st.sink ++ (src.drop pos).take (min len CHUNK_SIZE)
            reads := st.reads + 1
            writes := st.writes + 1
            chunks := st.chunks ++ [min len CHUNK_SIZE] }
      else
        some ({ st with reads := st.reads + 1 }, some CopyError.ShortRead)

/-- Process exit status of `main`. -/
inductive MainStatus
  | success
  | failure
deriving DecidableEq

/-- Observable outcome of a `main` run: the exit status, whether
`fclose(fin)` was executed before returning, and the result of the
payload copy when one was attempted. -/
structure MainOutcome where
  status : MainStatus
  finClosed : Bool
  copyResult : Option (CopyState × Option CopyError)
deriving DecidableEq

/-- The body of `main` from the header read onwards (lines 97-128 of
src/efiextract.c), for an input stream `src` and the flag `wantOut`
recording whether an output file was requested (and opened
successfully).  Path by path, as written in the source:
* header read short (fewer than 64 bytes): `fclose(fin)`, exit failure;
* magic mismatch: exit failure WITHOUT `fclose(fin)` (the source
  returns directly at line 108);
* otherwise: copy the payload when an output was requested, close
  everything, and exit success regardless of the copy result
  (`copy_data` returns `void`; `main` does not inspect any copy error).
-/
def mainRun (src : List Nat) (wantOut : Bool) : MainOutcome :=
  if src.length < HEADER_SIZE then
    { status := MainStatus.failure, finClosed := true, copyResult := none }
  else if fieldAt src 0 2 ≠ EFI_PE_MSDOS_MAGIC ∨ fieldAt src 4 4 ≠ ZIMG_MAGIC ∨
      fieldAt src 56 4 ≠ EFI_PE_LINUX_MAGIC then
    { status := MainStatus.failure, finClosed := false, copyResult := none }
  else
    { status := MainStatus.success
      finClosed := true
      copyResult :=
        if wantOut then
          some (copy_data src (le32dec (fieldAt src 8 4)) (le32dec (fieldAt src 12 4)))
        else
          none }

/-- A well-formed 64-byte header describing a 4-byte payload placed
immediately after the header (payload_offset = 64, payload_size = 4,
compression type "gzip").  The stream consists of the header only, so a
copy of the payload necessarily runs off the end of the stream. -/
def validHeaderBytes : List Nat :=
  [0x4D, 0x5A, 0, 0,
   0x7A, 0x69, 0x6D, 0x67,
   64, 0, 0, 0,
   4, 0, 0, 0,
   0, 0, 0, 0, 0, 0, 0, 0] ++
  ([0x67, 0x7A, 0x69, 0x70] ++ List.replicate 28 0) ++
  [0xCD, 0x23, 0x82, 0x81,
   0, 0, 0, 0]

/-- The header value that `parse` produces for `validHeaderBytes`. -/
def validHeader : linux_efi_zboot_header :=
  { msdos_magic := [0x4D, 0x5A]
    reserved0 := [0, 0]
    zimg := [0x7A, 0x69, 0x6D, 0x67]
    payload_offset := 64
    payload_size := 4
    reserved1 := [0, 0, 0, 0, 0, 0, 0, 0]
    compression_type := [0x67, 0x7A, 0x69, 0x70] ++ List.replicate 28 0
    linux_magic := [0xCD, 0x23, 0x82, 0x81]
    pe_header_offset := 0 }

/-- The first 60 bytes of the valid image `validHeaderBytes`: an input
stream providing exactly 60 bytes, all magic bytes among them intact.
(The field widths 2+2+4+4+4+8+32+4+4 sum to 64, not 60, so no input of
60 bytes can ever supply the whole struct.) -/
def specHeader60 : List Nat := validHeaderBytes.take 60

/-! ### Helper lemmas about the copy loop -/

theorem copyLoop_zero (src : List Nat) (pos : Nat) (st : CopyState) :
    copyLoop src pos 0 st = (st, none) := by
  unfold copyLoop
  simp

theorem copyLoop_step_ok (src : List Nat) (pos len : Nat) (st : CopyState)
    (h0 : len ≠ 0) (hr : pos + min len CHUNK_SIZE ≤ src.length) :
    copyLoop src pos len st =
      copyLoop src (pos + min len CHUNK_SIZE) (len - min len CHUNK_SIZE)
        { sink := st.sink ++ (src.drop pos).take (min len CHUNK_SIZE)
          reads := st.reads + 1
          writes := st.writes + 1
          chunks := st.chunks ++ [min len CHUNK_SIZE] } := by
  conv_lhs => rw [copyLoop]
  rw [dif_neg h0, dif_pos hr]

theorem copyLoop_step_fail (src : List Nat) (pos len : Nat) (st : CopyState)
    (h0 : len ≠ 0) (hr : ¬ pos + min len CHUNK_SIZE ≤ src.length) :
    copyLoop src pos len st =
      ({ st with reads := st.reads + 1 }, some CopyError.ShortRead) := by
  conv_lhs => rw [copyLoop]
  rw [dif_neg h0, dif_neg hr]

theorem copyLoop_ok_snd (src : List Nat) :
    ∀ len pos st, pos + len ≤ src.length → (copyLoop src pos len st).2 = none := by
  intro len
  induction len using Nat.strong_induction_on with
  | _ len ih =>
    intro pos st hle
    by_cases h0 : len = 0
    · subst h0
      rw [copyLoop_zero]
    · have hc : 0 < CHUNK_SIZE := by decide
      have hr : pos + min len CHUNK_SIZE ≤ src.length := by omega
      rw [copyLoop_step_ok src pos len st h0 hr]
      exact ih (len - min len CHUNK_SIZE) (by omega) _ _ (by omega)

theorem copyLoop_ok_sink (src : List Nat) :
    ∀ len pos st, pos + len ≤ src.length →
      (copyLoop src pos len st).1.sink = st.sink ++ (src.drop pos).take len := by
  intro len
  induction len using Nat.strong_induction_on with
  | _ len ih =>
    intro pos st hle
    by_cases h0 : len = 0
    · subst h0
      rw [copyLoop_zero]
      simp
    · have hc : 0 < CHUNK_SIZE := by decide
      have hr : pos + min len CHUNK_SIZE ≤ src.length := by omega
      rw [copyLoop_step_ok src pos len st h0 hr,
        ih (len - min len CHUNK_SIZE) (by omega) _ _ (by omega)]
      simp only [List.append_assoc]
      congr 1
      rw [← List.drop_drop, ← List.take_add]
      congr 1
      omega

theorem copyLoop_chunks_le (src : List Nat) :
    ∀ len pos st, (∀ c ∈ st.chunks, 0 < c ∧ c ≤ CHUNK_SIZE) →
      ∀ c ∈ (copyLoop src pos len st).1.chunks, 0 < c ∧ c ≤ CHUNK_SIZE := by
  intro len
  induction len using Nat.strong_induction_on with
  | _ len ih =>
    intro pos st hst
    by_cases h0 : len = 0
    · subst h0
      rw [copyLoop_zero]
      exact hst
    · have hc : 0 < CHUNK_SIZE := by decide
      by_cases hr : pos + min len CHUNK_SIZE ≤ src.length
      · rw [copyLoop_step_ok src pos len st h0 hr]
        refine ih (len - min len CHUNK_SIZE) (by omega) _ _ ?_
        intro c hcmem
        rcases List.mem_append.1 hcmem with hcl | hcr
        · exact hst c hcl
        · have : c = min len CHUNK_SIZE := by simpa using hcr
          subst this
          exact ⟨by omega, Nat.min_le_right _ _⟩
      · rw [copyLoop_step_fail src pos len st h0 hr]
        exact hst

theorem copyLoop_short (src : List Nat) :
    ∀ len pos st, 0 < len → src.length < pos + len →
      (copyLoop src pos len st).2 = some CopyError.ShortRead := by
  intro len
  induction len using Nat.strong_induction_on with
  | _ len ih =>
    intro pos st hpos hlt
    have h0 : len ≠ 0 := by omega
    have hc : 0 < CHUNK_SIZE := by decide
    by_cases hr : pos + min len CHUNK_SIZE ≤ src.length
    · rw [copyLoop_step_ok src pos len st h0 hr]
      exact ih (len - min len CHUNK_SIZE) (by omega) _ _ (by omega) (by omega)
    · rw [copyLoop_step_fail src pos len st h0 hr]

theorem copyLoop_err_sink (src : List Nat) :
    ∀ len pos st e, (copyLoop src pos len st).2 = some e →
      ∃ k, (copyLoop src pos len st).1.sink =
          st.sink ++ ((src.drop pos).take len).take (k * CHUNK_SIZE) ∧
        k * CHUNK_SIZE < len ∧
        (copyLoop src pos len st).1.chunks = st.chunks ++ List.replicate k CHUNK_SIZE := by
  intro len
  induction len using Nat.strong_induction_on with
  | _ len ih =>
    intro pos st e herr
    by_cases h0 : len = 0
    · subst h0
      rw [copyLoop_zero] at herr
      exact absurd herr (by simp)
    · have hc : 0 < CHUNK_SIZE := by decide
      by_cases hr : pos + min len CHUNK_SIZE ≤ src.length
      · rw [copyLoop_step_ok src pos len st h0 hr] at herr ⊢
        obtain ⟨k, hsink, hlt, hchunks⟩ :=
          ih (len - min len CHUNK_SIZE) (by omega) _ _ _ herr
        have hmin : min len CHUNK_SIZE = CHUNK_SIZE := by omega
        rw [hmin] at hsink hlt hchunks ⊢
        refine ⟨k + 1, ?_, by
          have hs : (k + 1) * CHUNK_SIZE = k * CHUNK_SIZE + CHUNK_SIZE := Nat.succ_mul k _
          omega, ?_⟩
        · rw [hsink]
          simp only [List.append_assoc]
          congr 1
          have h1 : ((src.drop pos).take len).take ((k + 1) * CHUNK_SIZE) =
              (src.drop pos).take ((k + 1) * CHUNK_SIZE) := by
            rw [List.take_take]
            congr 1
            have hs : (k + 1) * CHUNK_SIZE = k * CHUNK_SIZE + CHUNK_SIZE := Nat.succ_mul k _
            omega
          have h2 : ((src.drop (pos + CHUNK_SIZE)).take (len - CHUNK_SIZE)).take
                (k * CHUNK_SIZE) = (src.drop (pos + CHUNK_SIZE)).take (k * CHUNK_SIZE) := by
            rw [List.take_take]
            congr 1
            omega
          rw [h1, h2, ← List.drop_drop, ← List.take_add]
          congr 1
          exact (Nat.succ_mul k _).symm ▸ by omega
        · rw [hchunks]
          simp [List.replicate_succ]
      · rw [copyLoop_step_fail src pos len st h0 hr] at herr ⊢
        exact ⟨0, by simp, by omega, by simp⟩

theorem copyLoopFuel_spec (src : List Nat) :
    ∀ fuel pos len st, len ≤ fuel →
      copyLoopFuel fuel src pos len st = some (copyLoop src pos len st) := by
  intro fuel
  induction fuel with
  | zero =>
    intro pos len st hle
    have h0 : len = 0 := by omega
    subst h0
    rw [copyLoop_zero, copyLoopFuel]
    simp
  | succ f ih =>
    intro pos len st hle
    by_cases h0 : len = 0
    · subst h0
      rw [copyLoop_zero, copyLoopFuel]
      simp
    · have hc : 0 < CHUNK_SIZE := by decide
      rw [copyLoopFuel, if_neg h0]
      by_cases hr : pos + min len CHUNK_SIZE ≤ src.length
      · rw [if_pos hr, copyLoop_step_ok src pos len st h0 hr]
        exact ih _ _ _ (by omega)
      · rw [if_neg hr, copyLoop_step_fail src pos len st h0 hr]

/-! ### Helper lemmas about the header parser -/

theorem fieldAt_getElem? (src : List Nat) (off n j : Nat) (hj : j < n) :
    (fieldAt src off n)[j]? = src[off + j]? := by
  unfold fieldAt
  rw [List.getElem?_take_of_lt hj, List.getElem?_drop]

theorem fieldAt_take (src : List Nat) (off n : Nat) (h : off + n ≤ HEADER_SIZE) :
    fieldAt (src.take HEADER_SIZE) off n = fieldAt src off n := by
  unfold fieldAt
  rw [List.drop_take, List.take_take]
  congr 1
  simp only [HEADER_SIZE] at h ⊢
  omega

theorem parse_ok_magic (src : List Nat) (h : linux_efi_zboot_header)
    (hp : parse src = Except.ok h) :
    HEADER_SIZE ≤ src.length ∧ fieldAt src 0 2 = EFI_PE_MSDOS_MAGIC ∧
      fieldAt src 4 4 = ZIMG_MAGIC ∧ fieldAt src 56 4 = EFI_PE_LINUX_MAGIC := by
  unfold parse at hp
  by_cases h1 : src.length < HEADER_SIZE
  · rw [if_pos h1] at hp
    exact absurd hp (by simp)
  · rw [if_neg h1] at hp
    by_cases h2 : fieldAt src 0 2 ≠ EFI_PE_MSDOS_MAGIC ∨ fieldAt src 4 4 ≠ ZIMG_MAGIC ∨
        fieldAt src 56 4 ≠ EFI_PE_LINUX_MAGIC
    · rw [if_pos h2] at hp
      exact absurd hp (by simp)
    · push_neg at h2
      exact ⟨Nat.le_of_not_lt h1, h2.1, h2.2.1, h2.2.2⟩

theorem parse_bad_magic (src : List Nat) (hlen : HEADER_SIZE ≤ src.length)
    (hbad : fieldAt src 0 2 ≠ EFI_PE_MSDOS_MAGIC ∨ fieldAt src 4 4 ≠ ZIMG_MAGIC ∨
      fieldAt src 56 4 ≠ EFI_PE_LINUX_MAGIC) :
    parse src = Except.error ParseError.NotAZbootImage := by
  unfold parse
  rw [if_neg (Nat.not_lt.2 hlen), if_pos hbad]

theorem fieldAt_set_ne (src : List Nat) (off n i b : Nat)
    (hoff : off ≤ i) (hin : i < off + n) (hlen : i < src.length)
    (hb : b ≠ src.getD i 0) :
    fieldAt (src.set i b) off n ≠ fieldAt src off n := by
  intro heq
  have h1 : (fieldAt (src.set i b) off n)[i - off]? = (src.set i b)[i]? := by
    rw [fieldAt_getElem? _ _ _ _ (by omega)]
    congr 1
    omega
  have h2 : (fieldAt src off n)[i - off]? = src[i]? := by
    rw [fieldAt_getElem? _ _ _ _ (by omega)]
    congr 1
    omega
  rw [heq, h2] at h1
  rw [List.getElem?_set_self hlen] at h1
  have h3 : src[i]? = some src[i] := List.getElem?_eq_getElem hlen
  rw [h3] at h1
  apply hb
  rw [List.getD_eq_getElem?_getD, h3]
  exact (Option.some.inj h1).symm

/-! ### Claim theorems -/

/-- Claim C1: whenever the source stream contains at least
`offset + length` bytes, `copy_data` succeeds, the sink's final content
is byte-identical to `source[offset : offset + length]`, and every
transferred chunk has size at most `CHUNK_SIZE = 16384` (so a transfer
longer than one chunk still reproduces the exact byte range). -/
theorem copy_inbounds_exact (src : List Nat) (offset len : Nat)
    (h : offset + len ≤ src.length) :
    (copy_data src offset len).2 = none ∧
    (copy_data src offset len).1.sink = (src.drop offset).take len ∧
    ∀ c ∈ (copy_data src offset len).1.chunks, 0 < c ∧ c ≤ CHUNK_SIZE := by
  unfold copy_data
  refine ⟨copyLoop_ok_snd src len offset _ h, ?_,
    copyLoop_chunks_le src len offset _ (by simp)⟩
  rw [copyLoop_ok_sink src len offset _ h]
  simp

/-- Witness for C1 at a source of 20000 bytes copied whole, a transfer
longer than the 16384-byte chunk size. -/
theorem copy_inbounds_exact_witness :
    (copy_data (List.replicate 20000 7) 0 20000).2 = none ∧
    (copy_data (List.replicate 20000 7) 0 20000).1.sink =
      ((List.replicate 20000 7 : List Nat).drop 0).take 20000 ∧
    ∀ c ∈ (copy_data (List.replicate 20000 7) 0 20000).1.chunks,
      0 < c ∧ c ≤ CHUNK_SIZE :=
  copy_inbounds_exact (List.replicate 20000 7) 0 20000
    (by rw [List.length_replicate])

/-- Claim C2: on any input long enough to supply the header, `parse`
fails with `NotAZbootImage` whenever one of the three magic fields
differs from its required value; `parse` never returns a header unless
all three magic checks passed; and altering any single byte of a magic
field of an accepted image makes `parse` fail with `NotAZbootImage`. -/
theorem parse_magic_gate :
    (∀ src : List Nat, HEADER_SIZE ≤ src.length →
      (fieldAt src 0 2 ≠ EFI_PE_MSDOS_MAGIC ∨ fieldAt src 4 4 ≠ ZIMG_MAGIC ∨
        fieldAt src 56 4 ≠ EFI_PE_LINUX_MAGIC) →
      parse src = Except.error ParseError.NotAZbootImage) ∧
    (∀ (src : List Nat) (h : linux_efi_zboot_header), parse src = Except.ok h →
      fieldAt src 0 2 = EFI_PE_MSDOS_MAGIC ∧ fieldAt src 4 4 = ZIMG_MAGIC ∧
        fieldAt src 56 4 = EFI_PE_LINUX_MAGIC) ∧
    (∀ (src : List Nat) (h : linux_efi_zboot_header) (i b : Nat),
      parse src = Except.ok h →
      (i < 2 ∨ (4 ≤ i ∧ i < 8) ∨ (56 ≤ i ∧ i < 60)) →
      b ≠ src.getD i 0 →
      parse (src.set i b) = Except.error ParseError.NotAZbootImage) := by
  refine ⟨fun src hlen hbad => parse_bad_magic src hlen hbad,
    fun src h hp => (parse_ok_magic src h hp).2, ?_⟩
  intro src h i b hp hreg hb
  obtain ⟨hlen, hm1, hm2, hm3⟩ := parse_ok_magic src h hp
  have hilen : i < src.length := by
    simp only [HEADER_SIZE] at hlen
    omega
  apply parse_bad_magic
  · rw [List.length_set]
    exact hlen
  · rcases hreg with hr | hr | hr
    · exact Or.inl (hm1 ▸ fieldAt_set_ne src 0 2 i b (by omega) (by omega) hilen hb)
    · exact Or.inr (Or.inl
        (hm2 ▸ fieldAt_set_ne src 4 4 i b (by omega) (by omega) hilen hb))
    · exact Or.inr (Or.inr
        (hm3 ▸ fieldAt_set_ne src 56 4 i b (by omega) (by omega) hilen hb))

/-- Witness for C2: a 64-byte all-zero input is rejected; the valid
image passes all three magic checks; and flipping its very first magic
byte (0x4D to 0x58) makes `parse` fail with `NotAZbootImage`. -/
theorem parse_magic_gate_witness :
    parse (List.replicate HEADER_SIZE 0) = Except.error ParseError.NotAZbootImage ∧
    (fieldAt validHeaderBytes 0 2 = EFI_PE_MSDOS_MAGIC ∧
      fieldAt validHeaderBytes 4 4 = ZIMG_MAGIC ∧
      fieldAt validHeaderBytes 56 4 = EFI_PE_LINUX_MAGIC) ∧
    parse (validHeaderBytes.set 0 0x58) = Except.error ParseError.NotAZbootImage :=
  ⟨parse_magic_gate.1 (List.replicate HEADER_SIZE 0) (by simp) (Or.inl (by decide)),
   parse_magic_gate.2.1 validHeaderBytes validHeader (by rfl),
   parse_magic_gate.2.2 validHeaderBytes validHeader 0 0x58 (by rfl)
     (Or.inl (by decide)) (by decide)⟩

/-- Counterexample to C3 as stated: `specHeader60` provides exactly 60
bytes, yet `parse` fails with `TruncatedHeader` — so `parse` does not
read exactly 60 bytes, and the on-wire header size is not 60 bytes. -/
theorem parse_sixty_bytes_truncated :
    specHeader60.length = 60 ∧
    parse specHeader60 = Except.error ParseError.TruncatedHeader := by
  constructor
  · decide
  · rfl

/-- Claim C3 (amended): `parse` reads exactly `HEADER_SIZE = 64` bytes
(the field widths 2+2+4+4+4+8+32+4+4 sum to 64): an input with fewer
than 64 bytes fails with `TruncatedHeader`, an input with at least 64
bytes never fails with `TruncatedHeader`, and the result depends only
on the first 64 bytes of the input. -/
theorem parse_header_size_64 :
    (∀ src : List Nat, src.length < HEADER_SIZE →
      parse src = Except.error ParseError.TruncatedHeader) ∧
    (∀ src : List Nat, HEADER_SIZE ≤ src.length →
      parse src ≠ Except.error ParseError.TruncatedHeader) ∧
    (∀ src : List Nat, parse (src.take HEADER_SIZE) = parse src) := by
  refine ⟨?_, ?_, ?_⟩
  · intro src hl
    unfold parse
    rw [if_pos hl]
  · intro src hl
    unfold parse
    rw [if_neg (Nat.not_lt.2 hl)]
    split <;> simp
  · intro src
    by_cases hl : src.length < HEADER_SIZE
    · have hl2 : (src.take HEADER_SIZE).length < HEADER_SIZE := by
        rw [List.length_take]
        omega
      unfold parse
      rw [if_pos hl, if_pos hl2]
    · have hl2 : ¬ (src.take HEADER_SIZE).length < HEADER_SIZE := by
        rw [List.length_take]
        omega
      unfold parse
      rw [if_neg hl, if_neg hl2, fieldAt_take src 0 2 (by decide),
        fieldAt_take src 4 4 (by decide), fieldAt_take src 56 4 (by decide),
        fieldAt_take src 2 2 (by decide), fieldAt_take src 8 4 (by decide),
        fieldAt_take src 12 4 (by decide), fieldAt_take src 16 8 (by decide),
        fieldAt_take src 24 32 (by decide), fieldAt_take src 60 4 (by decide)]

/-- Witness for C3 (amended): the empty input is truncated; the 64-byte
valid image is not. -/
theorem parse_header_size_64_witness :
    parse [] = Except.error ParseError.TruncatedHeader ∧
    parse validHeaderBytes ≠ Except.error ParseError.TruncatedHeader :=
  ⟨parse_header_size_64.1 [] (by decide),
   parse_header_size_64.2.1 validHeaderBytes (by decide)⟩

/-- Claim C4: decoding the 4-byte little-endian wire encoding of any
unsigned 32-bit value yields the value back (the conversion applied to
`payload_offset`, `payload_size` and `pe_header_offset` is correct
independently of any host byte order, being defined on the raw wire
bytes): `le32dec (le32enc x) = x` for all `x < 2 ^ 32`. -/
theorem le32_decode_encode (x : Nat) (hx : x < 2 ^ 32) :
    le32dec (le32enc x) = x := by
  simp only [le32enc, le32dec]
  omega

/-- Witness for C4 at x = 0xDEADBEEF. -/
theorem le32_decode_encode_witness : le32dec (le32enc 3735928559) = 3735928559 :=
  le32_decode_encode 3735928559 (by decide)

/-- Counterexample to C5 as stated: with `length = 0` and an offset past
the end of the stream (source `[]`, offset 1), fewer than
`offset + length` bytes are available, yet `copy_data` reports success
(the seek past end of file succeeds on a regular file and the loop body
never runs), instead of failing with `ShortRead`. -/
theorem copy_zero_length_past_end_ok :
    ([] : List Nat).length < 1 + 0 ∧ (copy_data [] 1 0).2 = none := by
  refine ⟨by decide, ?_⟩
  unfold copy_data
  rw [copyLoop_zero]

/-- Claim C5 (amended): for every source, offset and POSITIVE length
such that the source stream ends before `offset + length` bytes are
available, `copy_data` fails with `ShortRead` and does not report
success. -/
theorem copy_short_source_shortread (src : List Nat) (offset len : Nat)
    (hpos : 0 < len) (hshort : src.length < offset + len) :
    (copy_data src offset len).2 = some CopyError.ShortRead := by
  unfold copy_data
  exact copyLoop_short src len offset _ hpos hshort

/-- Witness for C5 (amended) at an empty source and a 1-byte request. -/
theorem copy_short_source_shortread_witness :
    (copy_data [] 0 1).2 = some CopyError.ShortRead :=
  copy_short_source_shortread [] 0 1 (by decide) (by decide)

/-- Claim C6, evaluated at the failing input: on `validHeaderBytes`
(a fully valid 64-byte image whose declared payload lies past the end
of the stream) with an output requested, the payload copy fails with
`ShortRead`, yet `main` exits with the success status — the copy error
is only printed inside `copy_data` (which returns `void`) and is never
surfaced to `main`, contradicting the claim. -/
theorem main_copy_failure_exit_success :
    (mainRun validHeaderBytes true).status = MainStatus.success ∧
    ∃ st, (mainRun validHeaderBytes true).copyResult =
      some (st, some CopyError.ShortRead) := by
  have h1 : ¬ validHeaderBytes.length < HEADER_SIZE := by decide
  have h2 : ¬ (fieldAt validHeaderBytes 0 2 ≠ EFI_PE_MSDOS_MAGIC ∨
      fieldAt validHeaderBytes 4 4 ≠ ZIMG_MAGIC ∨
      fieldAt validHeaderBytes 56 4 ≠ EFI_PE_LINUX_MAGIC) := by decide
  have hoff : le32dec (fieldAt validHeaderBytes 8 4) = 64 := by decide
  have hsz : le32dec (fieldAt validHeaderBytes 12 4) = 4 := by decide
  have herr : (copy_data validHeaderBytes 64 4).2 = some CopyError.ShortRead :=
    copyLoop_short validHeaderBytes 4 64 _ (by decide) (by decide)
  unfold mainRun
  rw [if_neg h1, if_neg h2]
  refine ⟨rfl, (copy_data validHeaderBytes 64 4).1, ?_⟩
  simp only [if_pos, hoff, hsz]
  rw [← herr]

/-- Claim C7: `copy_data` invoked with `length = 0` performs no read
calls and no write calls and returns success, for every source and
offset. -/
theorem copy_zero_length_noop (src : List Nat) (offset : Nat) :
    copy_data src offset 0 =
      ({ sink := [], reads := 0, writes := 0, chunks := [] }, none) := by
  unfold copy_data
  exact copyLoop_zero src offset _

/-- Claim C8, evaluated at the failing input: on a 64-byte input whose
magic fields mismatch (all zero bytes), `main` exits with a failure
status but returns WITHOUT closing the input stream (the return at line
108 of src/efiextract.c is not preceded by `fclose(fin)`), so the input
stream is not closed on the magic-mismatch exit path, contradicting the
claim. -/
theorem main_magic_mismatch_fin_not_closed :
    (mainRun (List.replicate HEADER_SIZE 0) false).status = MainStatus.failure ∧
    (mainRun (List.replicate HEADER_SIZE 0) false).finClosed = false := by
  constructor
  · decide
  · decide

/-- Claim C9: the copy loop terminates — each iteration transfers
`min(remaining, CHUNK_SIZE)` bytes, positive whenever the remaining
count is, so the remaining count strictly decreases to zero; hence the
fuel-indexed loop, which gives up when its iteration budget is
exhausted, never gives up once it has `len` units of fuel, and agrees
with the loop. -/
theorem copyLoop_fuel_terminates (fuel : Nat) (src : List Nat) (pos len : Nat)
    (st : CopyState) (hfuel : len ≤ fuel) :
    copyLoopFuel fuel src pos len st = some (copyLoop src pos len st) :=
  copyLoopFuel_spec src fuel pos len st hfuel

/-- Witness for C9 at fuel 5, a 3-byte source and a 5-byte request. -/
theorem copyLoop_fuel_terminates_witness :
    copyLoopFuel 5 [0, 1, 2] 0 5 { sink := [], reads := 0, writes := 0, chunks := [] } =
      some (copyLoop [0, 1, 2] 0 5 { sink := [], reads := 0, writes := 0, chunks := [] }) :=
  copyLoop_fuel_terminates 5 [0, 1, 2] 0 5
    { sink := [], reads := 0, writes := 0, chunks := [] } (by decide)

/-- Claim C10: the write of each chunk happens only after the read of
that chunk fully succeeded, so when `copy_data` fails with `ShortRead`
the sink holds exactly the previously completed whole chunks: an
initial segment of the requested range whose length is a whole multiple
of `CHUNK_SIZE` (in particular, only bytes of the source range, never
uninitialized buffer contents). -/
theorem copy_shortread_sink_whole_chunks (src : List Nat) (offset len : Nat)
    (herr : (copy_data src offset len).2 = some CopyError.ShortRead) :
    ∃ k, (copy_data src offset len).1.sink =
        ((src.drop offset).take len).take (k * CHUNK_SIZE) ∧
      k * CHUNK_SIZE < len ∧
      (copy_data src offset len).1.chunks = List.replicate k CHUNK_SIZE := by
  unfold copy_data at herr ⊢
  obtain ⟨k, hs, hlt, hch⟩ := copyLoop_err_sink src len offset _ _ herr
  exact ⟨k, by simpa using hs, hlt, by simpa using hch⟩

/-- Witness for C10 at a 3-byte source and a 5-byte request, whose
first chunk read already fails. -/
theorem copy_shortread_sink_whole_chunks_witness :
    ∃ k, (copy_data [0, 1, 2] 0 5).1.sink =
        ((([0, 1, 2] : List Nat).drop 0).take 5).take (k * CHUNK_SIZE) ∧
      k * CHUNK_SIZE < 5 ∧
      (copy_data [0, 1, 2] 0 5).1.chunks = List.replicate k CHUNK_SIZE :=
  copy_shortread_sink_whole_chunks [0, 1, 2] 0 5
    (copyLoop_short [0, 1, 2] 5 0
      { sink := [], reads := 0, writes := 0, chunks := [] } (by decide) (by decide))
